import Mathlib

/-
Verification development for the asyncigo single-threaded cooperative
asynchronous runtime (source file asyncio.go).  Each section embeds one
component of the runtime as executable Lean definitions translated
directly from the Go source, and proves the specification claims about
that component.
-/

set_option linter.unusedVariables false

namespace Asyncigo

/-- Go error values relevant to the runtime: `context.Canceled`, the
"future is still pending" error created in `Future.Result`, `io.EOF`,
and arbitrary other (user) error values.  `errors.Is(e, context.Canceled)`
holds exactly for `canceled`; the other error kinds do not wrap it. -/
inductive GoErr where
  | canceled
  | pending
  | eof
  | custom (n : Nat)
deriving DecidableEq, Repr

/-- Model of `errors.Is(err, context.Canceled)` for an error that may be
nil (`none`). -/
def errIsCanceled (e : Option GoErr) : Bool :=
  e = some GoErr.canceled

/-- State of a `context.Context` as far as the future code observes it:
its `Err()` value. -/
structure CtxSt where
  err : Option GoErr
deriving DecidableEq, Repr

/-- Go runtime panics that the embedded code can raise. -/
inductive RuntimePanic where
  | nilPointerDereference
deriving DecidableEq, Repr

/-- Shallow embedding of `Future[ResType]` (asyncio.go lines 39-46),
with `ResType` fixed to `Nat` and callbacks represented by identifiers:
the dynamics of a callback are tracked by returning the list of
identifiers of the callbacks that a call fires, in firing order. -/
structure Fut where
  ctx : Option CtxSt
  done : Bool
  err : Option GoErr
  result : Nat
  callbacks : List Nat
deriving DecidableEq, Repr

/-- `NewFuture` (lines 48-50): the zero value of the struct.  In
particular the `ctx` field is the nil interface. -/
def newFuture : Fut := ⟨none, false, none, 0, []⟩

/-- `Future.HasResult` (lines 57-59). -/
def Fut.hasResult (f : Fut) : Bool := f.done

/-- `Future.SetResult` (lines 147-158).  Returns the updated future and
the identifiers of the callbacks invoked synchronously during the call,
in invocation order (each invoked exactly once, with the new result). -/
def Fut.setResult (f : Fut) (v : Nat) (e : Option GoErr) : Fut × List Nat :=
  if f.done then (f, [])
  else ({ f with done := true, err := e, result := v }, f.callbacks)

/-- `Future.Cancel` (lines 122-128): a nil cause defaults to
`context.Canceled`, then `SetResult(zero, err)`. -/
def Fut.cancel (f : Fut) (e : Option GoErr) : Fut × List Nat :=
  f.setResult 0 (some (e.getD GoErr.canceled))

/-- `Future.AddResultCallback` (lines 89-96).  Returns the updated
future and the identifiers of callbacks fired synchronously during
registration (the new callback itself when the future is already done). -/
def Fut.addResultCallback (f : Fut) (cb : Nat) : Fut × List Nat :=
  if f.done then (f, [cb])
  else ({ f with callbacks := f.callbacks ++ [cb] }, [])

/-- `Future.Result` (lines 65-76).  On a done future it returns the
stored pair.  On a pending future the code evaluates `f.ctx.Err()`;
since `ctx` is a nil interface for every future built by `NewFuture`
(no code path ever assigns the field), that call is a nil-pointer
dereference, modelled as an `Except.error`. -/
def Fut.resultCall (f : Fut) : Except RuntimePanic (Nat × Option GoErr) :=
  if f.done then Except.ok (f.result, f.err)
  else
    match f.ctx with
    | none => Except.error RuntimePanic.nilPointerDereference
    | some c => Except.ok (0, some (c.err.getD GoErr.pending))

/-- C1: on a pending future the first `SetResult` stores its pair, marks
the future done and fires the registered callbacks; any later
`SetResult` (with arbitrary arguments) returns the future unchanged and
fires nothing; consequently after `Cancel(e); Cancel(e')` the stored
error is the first-set cause (`e`, defaulted to `context.Canceled` when
nil). -/
theorem setResult_effective_at_most_once
    (ctx : Option CtxSt) (e0 : Option GoErr) (v0 : Nat) (cbs : List Nat)
    (v1 v2 : Nat) (e1 e2 : Option GoErr) (c c' : Option GoErr) :
    (Fut.setResult ⟨ctx, false, e0, v0, cbs⟩ v1 e1 =
      (⟨ctx, true, e1, v1, cbs⟩, cbs))
    ∧ (Fut.setResult ⟨ctx, true, e1, v1, cbs⟩ v2 e2 =
      (⟨ctx, true, e1, v1, cbs⟩, []))
    ∧ (((Fut.cancel ⟨ctx, false, e0, v0, cbs⟩ c).1.cancel c').1.err =
      some (c.getD GoErr.canceled)) := by
  refine ⟨rfl, rfl, ?_⟩
  simp [Fut.cancel, Fut.setResult]

/-- C2: evaluation of the code at the failing input.  `Result()` on a
fresh future built by `NewFuture` (pending, `ctx` never assigned) does
not return the zero value with a pending error as the claim states: it
dereferences the nil `ctx` interface and panics. -/
theorem resultCall_pending_future_panics :
    newFuture.resultCall = Except.error RuntimePanic.nilPointerDereference := by
  rfl

/-- C5: registering a done-callback on a done future fires it
synchronously, exactly once, without touching the stored state;
registering on a pending future appends it and fires nothing; and
`SetResult` on a pending future fires exactly the registered callbacks,
in insertion order, synchronously inside the call. -/
theorem callbacks_fire_once_in_order
    (ctx : Option CtxSt) (e0 : Option GoErr) (v0 : Nat) (cbs : List Nat)
    (cb : Nat) (v : Nat) (e : Option GoErr) :
    (Fut.addResultCallback ⟨ctx, true, e0, v0, cbs⟩ cb =
      (⟨ctx, true, e0, v0, cbs⟩, [cb]))
    ∧ (Fut.addResultCallback ⟨ctx, false, e0, v0, cbs⟩ cb =
      (⟨ctx, false, e0, v0, cbs ++ [cb]⟩, []))
    ∧ (Fut.setResult ⟨ctx, false, e0, v0, cbs⟩ v e =
      (⟨ctx, true, e, v, cbs⟩, cbs)) := by
  exact ⟨rfl, rfl, rfl⟩

/-- Callbacks installed by `Future.Shield` (lines 130-145): the forward
callback registered on the source (completes the shield with the
source's outcome) and the back callback registered on the shield
(completes the source unless the error matches `context.Canceled`). -/
inductive ShieldCb where
  | fwd
  | back
deriving DecidableEq, Repr

/-- One future of the shield system: done flag, stored pair, and its
registered shield callbacks. -/
structure SFut where
  done : Bool
  val : Nat
  err : Option GoErr
  cbs : List ShieldCb
deriving DecidableEq, Repr

/-- The pair of futures wired together by `Shield`: the source `f` and
the shield future `f'`. -/
structure ShieldSys where
  src : SFut
  shd : SFut
deriving DecidableEq, Repr

/-- `SetResult` on one side of the shield system (`isSrc` selects the
source).  Follows lines 147-158: no-op when done, otherwise store the
pair, mark done, and run the callbacks registered at completion time in
order; the callbacks are the ones from `Shield` (lines 136-143), each of
which may call `SetResult` on the other side, hence the fuel. -/
def shieldSetResult : Nat → ShieldSys → Bool → Nat → Option GoErr → ShieldSys
  | 0, s, _, _, _ => s
  | fuel + 1, s, isSrc, v, e =>
    let f := if isSrc then s.src else s.shd
    if f.done then s
    else
      let f' : SFut := { f with done := true, val := v, err := e }
      let s1 := if isSrc then { s with src := f' } else { s with shd := f' }
      f.cbs.foldl (fun acc cb =>
        match cb with
        | ShieldCb.fwd => shieldSetResult fuel acc false v e
        | ShieldCb.back =>
            if errIsCanceled e then acc
            else shieldSetResult fuel acc true v e) s1

/-- `Cancel` on one side of the shield system (lines 122-128). -/
def shieldCancel (fuel : Nat) (s : ShieldSys) (isSrc : Bool) (c : Option GoErr) :
    ShieldSys :=
  shieldSetResult fuel s isSrc 0 (some (c.getD GoErr.canceled))

/-- System produced by `f' := f.Shield()` on a pending source `f`
(lines 134-144): `f` gains the forward callback, the fresh `f'` carries
the back callback. -/
def shieldInit : ShieldSys :=
  { src := ⟨false, 0, none, [ShieldCb.fwd]⟩,
    shd := ⟨false, 0, none, [ShieldCb.back]⟩ }

/-- C3 counterexample: cancelling the shield future with a concrete
cause that is not `context.Canceled` (here `custom 0`) completes the
shield future but, contrary to the claim, also completes the source
future with that cause: the back callback only suppresses propagation
when the error matches `context.Canceled`. -/
theorem shield_cancel_custom_cause_completes_source :
    (shieldCancel 3 shieldInit false (some (GoErr.custom 0))).shd.done = true
    ∧ (shieldCancel 3 shieldInit false (some (GoErr.custom 0))).src.done = true := by
  constructor <;> rfl

/-- C3 amended: the shield future mirrors the source — when the source
completes with `(v, e)` the shield future completes with `(v, e)` — and
cancelling the shield future with a nil cause, or with the
`context.Canceled` cause, completes the shield future with
`context.Canceled` while leaving the source pending; cancelling it with
any other cause completes both futures with that cause. -/
theorem shield_mirror_and_cancel
    (v : Nat) (e : Option GoErr) (n : Nat) :
    ((shieldSetResult 3 shieldInit true v e).src.done = true
      ∧ (shieldSetResult 3 shieldInit true v e).src.val = v
      ∧ (shieldSetResult 3 shieldInit true v e).src.err = e
      ∧ (shieldSetResult 3 shieldInit true v e).shd.done = true
      ∧ (shieldSetResult 3 shieldInit true v e).shd.val = v
      ∧ (shieldSetResult 3 shieldInit true v e).shd.err = e)
    ∧ ((shieldCancel 3 shieldInit false none).shd.done = true
      ∧ (shieldCancel 3 shieldInit false none).shd.err = some GoErr.canceled
      ∧ (shieldCancel 3 shieldInit false none).src = shieldInit.src)
    ∧ ((shieldCancel 3 shieldInit false (some GoErr.canceled)).shd.done = true
      ∧ (shieldCancel 3 shieldInit false (some GoErr.canceled)).src = shieldInit.src)
    ∧ ((shieldCancel 3 shieldInit false (some (GoErr.custom n))).shd.done = true
      ∧ (shieldCancel 3 shieldInit false (some (GoErr.custom n))).shd.err
          = some (GoErr.custom n)
      ∧ (shieldCancel 3 shieldInit false (some (GoErr.custom n))).src.done = true
      ∧ (shieldCancel 3 shieldInit false (some (GoErr.custom n))).src.err
          = some (GoErr.custom n)) := by
  refine ⟨?_, ⟨rfl, rfl, rfl⟩, ⟨rfl, rfl⟩, ?_⟩
  · by_cases h : errIsCanceled e <;>
      simp [shieldSetResult, shieldInit, h]
  · simp [shieldCancel, shieldSetResult, shieldInit, errIsCanceled]

/-- The literal `time.Second * 30` from line 439, in nanoseconds. -/
def thirtySecondsNs : Int := 30 * 1000000000

/-- Timeout computation of `EventLoop.Run` (lines 439-448), in
nanoseconds.  `hasPendingCallbacks` is `!e.pendingCallbacks.Empty()`,
`timeUntilFirst` is `e.pendingCallbacks.TimeUntilFirst()` (only read
when the queue is non-empty), and `untilDeadline` is
`time.Until(deadline)` when `ctx.Deadline()` reports a deadline. -/
def computeTimeout (hasPendingCallbacks : Bool) (timeUntilFirst : Int)
    (untilDeadline : Option Int) : Int :=
  let t := if hasPendingCallbacks then timeUntilFirst else thirtySecondsNs
  match untilDeadline with
  | some u => if u < t then u else t
  | none => t

/-- C4 counterexample: with a pending callback 31 seconds away and no
context deadline, the timeout handed to `poller.Wait` is 31 seconds —
it exceeds the 30-second value and differs from the claimed
`min(time_until_first_callback, HARD_CAP)`. -/
theorem computeTimeout_exceeds_thirty_seconds :
    computeTimeout true (31 * 1000000000) none = 31 * 1000000000
    ∧ thirtySecondsNs < 31 * 1000000000
    ∧ computeTimeout true (31 * 1000000000) none
        ≠ min (31 * 1000000000) thirtySecondsNs := by
  refine ⟨rfl, by decide, by decide⟩

/-- C4 amended: the timeout is the time until the first pending
callback when the callback queue is non-empty and 30 seconds otherwise
(a default, not a cap), further reduced to the time until the context
deadline when that is sooner; so it can exceed 30 seconds whenever the
first pending callback lies further away. -/
theorem computeTimeout_characterization
    (hasPendingCallbacks : Bool) (timeUntilFirst : Int) (u : Int) :
    computeTimeout hasPendingCallbacks timeUntilFirst none
      = (if hasPendingCallbacks then timeUntilFirst else thirtySecondsNs)
    ∧ computeTimeout hasPendingCallbacks timeUntilFirst (some u)
      = min (if hasPendingCallbacks then timeUntilFirst else thirtySecondsNs) u := by
  constructor
  · rfl
  · simp only [computeTimeout]
    rcases le_or_lt u (if hasPendingCallbacks then timeUntilFirst else thirtySecondsNs) with h | h
    · rcases eq_or_lt_of_le h with h' | h'
      · simp [h', min_eq_right h]
      · simp [h', min_eq_right h]
    · simp [not_lt.mpr (le_of_lt h), min_eq_left (le_of_lt h)]

/-- State of a spawned task as far as C6 observes it: whether the user
coroutine body has started executing, the task's result future (done
flag and error), and the cancellation cause of the task's private
context (set by the done-callback installed at lines 205-210). -/
structure TaskSt where
  coroStarted : Bool
  resultDone : Bool
  resultErr : Option GoErr
  ctxCause : Option GoErr
deriving DecidableEq, Repr

/-- State of a task right after `SpawnTask` returns (lines 171-228):
the coroutine driver has been constructed lazily but never advanced, the
result future is pending, and no cancellation has been requested.  The
zero-delay callback scheduled at lines 217-226 has not yet run. -/
def spawnTaskReturned : TaskSt :=
  ⟨false, false, none, none⟩

/-- `Task.Cancel` (lines 289-291): `resultFut.Cancel(err)`.  A nil
cause defaults to `context.Canceled`; if the result future was pending
it completes with the cause and its done-callback (lines 205-210) runs
`task.cancel(err)`, recording the cause on the task's context. -/
def taskCancel (t : TaskSt) (e : Option GoErr) : TaskSt :=
  if t.resultDone then t
  else
    let cause := e.getD GoErr.canceled
    { t with resultDone := true, resultErr := some cause, ctxCause := some cause }

/-- The zero-delay callback scheduled by `SpawnTask` (lines 217-226):
if the result future already has a result, return without starting the
coroutine; else if the task context carries a cancellation cause, cancel
the result future with it; otherwise `task.Step()` performs the first
step of the coroutine body. -/
def runSpawnCallback (t : TaskSt) : TaskSt :=
  if t.resultDone then t
  else
    match t.ctxCause with
    | some e =>
        { t with resultDone := true, resultErr := some e }
    | none => { t with coroStarted := true }

/-- C6: when `SpawnTask` returns, the coroutine body has not run (the
first step only happens inside the scheduled zero-delay callback); and
if the task is cancelled with a nil cause before that callback fires,
the callback finds the result future already completed and returns
without ever starting the coroutine, the result future holding the
`context.Canceled` error. -/
theorem spawnTask_deferred_start_and_cancel :
    spawnTaskReturned.coroStarted = false
    ∧ (runSpawnCallback (taskCancel spawnTaskReturned none)).coroStarted = false
    ∧ (runSpawnCallback (taskCancel spawnTaskReturned none)).resultDone = true
    ∧ (runSpawnCallback (taskCancel spawnTaskReturned none)).resultErr
        = some GoErr.canceled := by
  exact ⟨rfl, rfl, rfl, rfl⟩

/-- The unlock future of a `Mutex`: only its done flag is observable
(its value is always nil). -/
structure MFut where
  done : Bool
deriving DecidableEq, Repr

/-- `Mutex` (lines 812-814): a nullable pointer to the current unlock
future. -/
structure MutexSt where
  unlockFut : Option MFut
deriving DecidableEq, Repr

/-- Outcome of one iteration of the `Mutex.Lock` loop (lines 816-827). -/
inductive LockOutcome where
  | acquired
  | waiting
deriving DecidableEq, Repr

/-- One iteration of `Mutex.Lock` (lines 817-826): if there is no
unlock future or it is already done, install a fresh pending future and
return with the lock acquired; otherwise the caller awaits the current
unlock future (the mutex state is unchanged while it waits). -/
def mutexLockAttempt (m : MutexSt) : MutexSt × LockOutcome :=
  match m.unlockFut with
  | none => (⟨some ⟨false⟩⟩, LockOutcome.acquired)
  | some f =>
      if f.done then (⟨some ⟨false⟩⟩, LockOutcome.acquired)
      else (m, LockOutcome.waiting)

/-- `Mutex.Unlock` (lines 829-833): complete the unlock future if one
exists (`SetResult` is a no-op when it is already done). -/
def mutexUnlock (m : MutexSt) : MutexSt :=
  match m.unlockFut with
  | none => m
  | some _ => ⟨some ⟨true⟩⟩

/-- Operations applied to a mutex by the (single-threaded) clients:
a lock attempt by some task, or an unlock. -/
inductive MutexOp where
  | lock
  | unlock
deriving DecidableEq, Repr

/-- Mutex state paired with the number of current holders: a successful
lock attempt adds a holder; an unlock of a held mutex removes one. -/
def mutexStep (s : MutexSt × Nat) (op : MutexOp) : MutexSt × Nat :=
  match op with
  | MutexOp.lock =>
      match mutexLockAttempt s.1 with
      | (m', LockOutcome.acquired) => (m', s.2 + 1)
      | (m', LockOutcome.waiting) => (m', s.2)
  | MutexOp.unlock =>
      match s.1.unlockFut with
      | some f => (mutexUnlock s.1, if f.done then s.2 else s.2 - 1)
      | none => (s.1, s.2)

/-- Holder-count invariant: the mutex is held (by exactly one task)
precisely when its unlock future exists and is pending. -/
def mutexInv (s : MutexSt × Nat) : Prop :=
  s.2 = (match s.1.unlockFut with
         | some f => if f.done then 0 else 1
         | none => 0)

theorem mutexStep_preserves_inv (s : MutexSt × Nat) (op : MutexOp)
    (h : mutexInv s) : mutexInv (mutexStep s op) := by
  obtain ⟨⟨uf⟩, k⟩ := s
  unfold mutexInv at h ⊢
  cases op
  case lock =>
    rcases uf with _ | ⟨d⟩
    · simp_all [mutexStep, mutexLockAttempt]
    · rcases d with ⟨_ | _⟩ <;> simp_all [mutexStep, mutexLockAttempt]
  case unlock =>
    rcases uf with _ | ⟨d⟩
    · simp_all [mutexStep, mutexUnlock]
    · rcases d with ⟨_ | _⟩ <;> simp_all [mutexStep, mutexUnlock]

theorem mutexRun_inv (ops : List MutexOp) :
    mutexInv (ops.foldl mutexStep (⟨none⟩, 0)) := by
  have key : ∀ (ops : List MutexOp) (s : MutexSt × Nat), mutexInv s →
      mutexInv (ops.foldl mutexStep s) := by
    intro ops
    induction ops with
    | nil => intro s hs; exact hs
    | cons op rest ih =>
        intro s hs
        exact ih _ (mutexStep_preserves_inv s op hs)
  exact key ops (⟨none⟩, 0) rfl

/-- C7: starting from a fresh mutex, after any sequence of lock
attempts and unlocks the number of simultaneous holders is at most one
(a lock attempt made while the mutex is held leaves the state unchanged
and waits, so no second lock returns successfully before the matching
unlock); and `Unlock` on a mutex that has never been locked is a
no-op. -/
theorem mutex_mutual_exclusion (ops : List MutexOp) :
    (ops.foldl mutexStep (⟨none⟩, 0)).2 ≤ 1
    ∧ mutexLockAttempt ⟨some ⟨false⟩⟩ = (⟨some ⟨false⟩⟩, LockOutcome.waiting)
    ∧ mutexUnlock ⟨none⟩ = ⟨none⟩ := by
  refine ⟨?_, rfl, rfl⟩
  have h := mutexRun_inv ops
  unfold mutexInv at h
  rcases hf : (ops.foldl mutexStep (⟨none⟩, 0)).1.unlockFut with _ | ⟨d⟩
  · rw [hf] at h
    simp at h
    omega
  · rw [hf] at h
    rcases d with ⟨_ | _⟩ <;> simp at h <;> omega

/-- A waiter future of a `Queue[T]` (with `T` fixed to `Nat`): done
flag and stored value. -/
structure QFut where
  done : Bool
  val : Nat
deriving DecidableEq, Repr

/-- `Queue[T]` (lines 780-783): the item FIFO and the waiter FIFO. -/
structure QueueSt where
  data : List Nat
  futs : List QFut
deriving DecidableEq, Repr

/-- `Queue.Get` (lines 785-795): create a fresh future; if an item is
available, dequeue it and complete the future synchronously; then
append the future — completed or not — to the waiter list.  Returns the
new state and the returned future. -/
def queueGet (q : QueueSt) : QueueSt × QFut :=
  match q.data with
  | [] =>
      let fut : QFut := ⟨false, 0⟩
      ({ q with futs := q.futs ++ [fut] }, fut)
  | item :: rest =>
      let fut : QFut := ⟨true, item⟩
      ({ data := rest, futs := q.futs ++ [fut] }, fut)

/-- The pairing loop of `Queue.Push` (lines 799-809): while both lists
are non-empty, drop the front waiter if its future is already done,
otherwise complete it with the front item and remove both. -/
def queuePushLoop : List QFut → List Nat → List QFut × List Nat
  | [], data => ([], data)
  | f :: fs, [] => (f :: fs, [])
  | f :: fs, d :: ds =>
      if f.done then queuePushLoop fs (d :: ds)
      else queuePushLoop fs ds

/-- `Queue.Push` (lines 797-810): append the item, then run the pairing
loop. -/
def queuePush (q : QueueSt) (item : Nat) : QueueSt :=
  let r := queuePushLoop q.futs (q.data ++ [item])
  ⟨r.2, r.1⟩

/-- C8: evaluation of the code at the failing input.  Starting from an
empty queue, `Push(0); Push(1); Get()` leaves the state with
`data = [1]` and `futs` holding the already-completed future returned
by `Get` — both internal lists are non-empty at a steady state, because
`Get` appends the future to the waiter list even when it has just
completed it synchronously with an available item. -/
theorem queue_both_lists_nonempty :
    (queueGet (queuePush (queuePush ⟨[], []⟩ 0) 1)).1
      = ⟨[1], [⟨true, 0⟩]⟩
    ∧ (queueGet (queuePush (queuePush ⟨[], []⟩ 0) 1)).2.done = true := by
  exact ⟨rfl, rfl⟩

/-- The three wait modes (lines 849-855). -/
inductive WaitModeM where
  | firstResult
  | firstError
  | all
deriving DecidableEq, Repr

/-- Observable state built by `Wait` (lines 857-876): the closure
variables `done` and `futErr`, the result future `waitFut` (done flag
and error), and the number of done-callbacks left registered on
still-pending source futures. -/
structure WaitSt where
  doneCount : Nat
  futErr : Option GoErr
  waitDone : Bool
  waitErr : Option GoErr
  registered : Nat
deriving DecidableEq, Repr

/-- `waitFut.SetResult(nil, e)`: first write wins. -/
def waitSetResult (st : WaitSt) (e : Option GoErr) : WaitSt :=
  if st.waitDone then st else { st with waitDone := true, waitErr := e }

/-- Body of the done-callback `Wait` registers on each source future
(lines 863-873), run when that future completes with error `e`; `n` is
`len(futs)`. -/
def waitStep (mode : WaitModeM) (n : Nat) (st : WaitSt) (e : Option GoErr) :
    WaitSt :=
  let st := { st with doneCount := st.doneCount + 1 }
  match e with
  | some err =>
      let st := { st with futErr := some err }
      if mode ≠ WaitModeM.all then waitSetResult st (some err) else st
  | none =>
      if st.doneCount ≥ n ∨ mode = WaitModeM.firstResult then
        waitSetResult st st.futErr
      else st

/-- The call `Wait(mode, futs...)` itself (lines 857-876), over the
source futures' states at call time: `AddDoneCallback` on an
already-done future runs the callback synchronously during the loop,
and on a pending future registers it.  The returned `WaitSt` describes
`waitFut` when `Wait` returns. -/
def waitCall (mode : WaitModeM) (futs : List (Bool × Option GoErr)) : WaitSt :=
  futs.foldl
    (fun st f =>
      if f.1 then waitStep mode futs.length st f.2
      else { st with registered := st.registered + 1 })
    ⟨0, none, false, none, 0⟩

/-- C10: `Wait` invoked with an empty list of futures registers no
done-callback anywhere and returns a future that is still pending —
also in mode `All`, where a vacuous reading would complete it
immediately; with nothing registered, no later loop activity can ever
complete it. -/
theorem wait_empty_never_completes (mode : WaitModeM) :
    (waitCall mode []).waitDone = false
    ∧ (waitCall mode []).registered = 0
    ∧ (waitCall mode []).doneCount = 0 := by
  exact ⟨rfl, rfl, rfl⟩

/-- State of an `AsyncStream` backed by a deterministic in-memory file:
the stream's internal byte buffer (`a.buffer`) and the bytes the file
will still deliver before reporting `io.EOF`.  Bytes are modelled as
naturals. -/
structure StreamSt where
  buffer : List Nat
  input : List Nat
deriving DecidableEq, Repr

/-- `AsyncStream.read` (lines 580-603) against the in-memory file: if
the buffer already holds `maxBytes` bytes, return `maxBytes` without
reading; otherwise read up to `maxBytes - len(buffer)` bytes from the
file into the buffer.  The file delivers all its remaining bytes up to
the requested amount and reports `io.EOF` only when none are left.
Returns `(n, new state, eof)` with `n` the value `read` returns (the
new buffer length except on the early-return path). -/
def streamRead (s : StreamSt) (maxBytes : Nat) : Nat × StreamSt × Bool :=
  if maxBytes ≤ s.buffer.length then (maxBytes, s, false)
  else
    let taken := s.input.take (maxBytes - s.buffer.length)
    if taken.length = 0 then (s.buffer.length, s, true)
    else (s.buffer.length + taken.length,
          ⟨s.buffer ++ taken, s.input.drop (maxBytes - s.buffer.length)⟩, false)

/-- Result of `ReadUntil`: the returned byte slice, or the `io.EOF`
error returned when the stream ends with an empty buffer. -/
inductive RURes where
  | ok (bs : List Nat)
  | eofErr
deriving DecidableEq, Repr

/-- The read loop of `AsyncStream.ReadUntil` (lines 740-757): read up
to `bufSize` bytes, scan positions `len(buffer)-n .. len(buffer)-1` for
the delimiter and `consume(i+1)` on a hit, return the whole buffer at
EOF when it is non-empty and the error otherwise, else double `bufSize`
once the buffer has caught up with it and repeat.  `fuel` bounds the
number of iterations; `none` means the fuel ran out. -/
def readUntilLoop (ch : Nat) : Nat → StreamSt → Nat → Option (RURes × StreamSt)
  | 0, _, _ => none
  | fuel + 1, s, bufSize =>
    let r := streamRead s bufSize
    let n := r.1
    let s' := r.2.1
    let eof := r.2.2
    match (s'.buffer.drop (s'.buffer.length - n)).findIdx? (· == ch) with
    | some j =>
        let i := s'.buffer.length - n + j
        some (RURes.ok (s'.buffer.take (i + 1)), ⟨s'.buffer.drop (i + 1), s'.input⟩)
    | none =>
        if eof then
          if 0 < s'.buffer.length then some (RURes.ok s'.buffer, ⟨[], s'.input⟩)
          else some (RURes.eofErr, s')
        else
          readUntilLoop ch fuel s'
            (if bufSize ≤ s'.buffer.length then bufSize * 2 else bufSize)

/-- `AsyncStream.ReadUntil` (lines 733-758): scan the bytes already
buffered for the delimiter, then enter the read loop with an initial
`bufSize` of 1024.  The fuel is large enough for the loop to finish on
every input (proved below). -/
def readUntil (s : StreamSt) (ch : Nat) : Option (RURes × StreamSt) :=
  match s.buffer.findIdx? (· == ch) with
  | some i =>
      some (RURes.ok (s.buffer.take (i + 1)), ⟨s.buffer.drop (i + 1), s.input⟩)
  | none => readUntilLoop ch (s.buffer.length + 2 * s.input.length + 2) s 1024

/-- Outcome of `ReadUntil` as the specification words it: the buffered
bytes up to and including the first occurrence of the delimiter in the
byte sequence; at EOF with residual bytes and no delimiter, those bytes
as a partial result with no error; at EOF with nothing buffered, an
error. -/
def ruSpec (s : StreamSt) (ch : Nat) : RURes :=
  let total := s.buffer ++ s.input
  match total.findIdx? (· == ch) with
  | some i => RURes.ok (total.take (i + 1))
  | none => if total = [] then RURes.eofErr else RURes.ok total

/-- Expected outcome at a loop entry whose buffer has already been
scanned without a hit. -/
def ruSpecLoop (s : StreamSt) (ch : Nat) : RURes :=
  match s.input.findIdx? (· == ch) with
  | some j => RURes.ok (s.buffer ++ s.input.take (j + 1))
  | none =>
      if s.buffer ++ s.input = [] then RURes.eofErr
      else RURes.ok (s.buffer ++ s.input)

theorem findIdx_drop_none {p : Nat → Bool} {l : List Nat}
    (h : l.findIdx? p = none) (k : Nat) : (l.drop k).findIdx? p = none := by
  rw [List.findIdx?_eq_none_iff] at h ⊢
  intro x hx
  exact h x (List.drop_subset _ _ hx)

theorem findIdx_some_lt {p : Nat → Bool} {l : List Nat} {i : Nat}
    (h : l.findIdx? p = some i) : i < l.length :=
  (List.findIdx?_eq_some_iff_findIdx_eq.mp h).1

theorem ruSpecLoop_absorb (buffer taken rest : List Nat) (ch : Nat)
    (htk : taken.findIdx? (· == ch) = none) :
    ruSpecLoop ⟨buffer ++ taken, rest⟩ ch = ruSpecLoop ⟨buffer, taken ++ rest⟩ ch := by
  cases hr : rest.findIdx? (· == ch) with
  | some j =>
      have h1 : (taken ++ rest).findIdx? (· == ch) = some (j + taken.length) := by
        rw [List.findIdx?_append, htk, Option.none_or, hr]
        rfl
      rw [ruSpecLoop, ruSpecLoop]
      simp only [h1, hr]
      rw [show j + taken.length + 1 = taken.length + (j + 1) by omega,
        List.take_append, List.append_assoc]
  | none =>
      have h1 : (taken ++ rest).findIdx? (· == ch) = none := by
        rw [List.findIdx?_append, htk, Option.none_or, hr]
        rfl
      rw [ruSpecLoop, ruSpecLoop]
      simp only [h1, hr, List.append_assoc]

theorem ruSpec_eq_ruSpecLoop (buffer input : List Nat) (ch : Nat)
    (hnone : buffer.findIdx? (· == ch) = none) :
    ruSpec ⟨buffer, input⟩ ch = ruSpecLoop ⟨buffer, input⟩ ch := by
  have h2 := ruSpecLoop_absorb [] buffer input ch hnone
  simp only [List.nil_append] at h2
  rw [h2]
  unfold ruSpec ruSpecLoop
  simp only [List.nil_append]

theorem readUntilLoop_spec (ch : Nat) :
    ∀ (fuel : Nat) (s : StreamSt) (bufSize : Nat),
      s.buffer.findIdx? (· == ch) = none → 1 ≤ bufSize →
      2 * s.input.length + (s.buffer.length + 1 - bufSize) < fuel →
      ∃ st, readUntilLoop ch fuel s bufSize = some (ruSpecLoop s ch, st) := by
  intro fuel
  induction fuel with
  | zero =>
      intro s bufSize _ _ hm
      omega
  | succ m ih =>
      intro s bufSize hnone hb hm
      by_cases hA : bufSize ≤ s.buffer.length
      · have hr : streamRead s bufSize = (bufSize, s, false) := by
          simp [streamRead, hA]
        have hscan : (s.buffer.drop (s.buffer.length - bufSize)).findIdx? (· == ch)
            = none := findIdx_drop_none hnone _
        obtain ⟨st, hst⟩ := ih s (bufSize * 2) hnone (by omega) (by omega)
        refine ⟨st, ?_⟩
        simp only [readUntilLoop, hr, hscan]
        simp [hA, hst]
      · rcases hinput : s.input with _ | ⟨x, xs⟩
        · have hr : streamRead s bufSize = (s.buffer.length, s, true) := by
            simp [streamRead, hA, hinput]
          have hscan : (s.buffer.drop (s.buffer.length - s.buffer.length)).findIdx?
              (· == ch) = none := findIdx_drop_none hnone _
          by_cases hbuf : s.buffer = []
          · refine ⟨s, ?_⟩
            simp only [readUntilLoop, hr, hscan]
            simp [hbuf, ruSpecLoop, hinput]
          · refine ⟨⟨[], s.input⟩, ?_⟩
            simp only [readUntilLoop, hr, hscan]
            have hlen : 0 < s.buffer.length := List.length_pos.mpr hbuf
            simp [hlen, ruSpecLoop, hinput, hbuf]
        · have hxs : s.input.length = xs.length + 1 := by rw [hinput]; rfl
          have hk : 1 ≤ bufSize - s.buffer.length := by omega
          have hinne : s.input ≠ [] := by
            rw [hinput]
            simp
          have hkne : bufSize - s.buffer.length ≠ 0 := by omega
          have htne : ¬((s.input.take (bufSize - s.buffer.length)).length = 0) := by
            rw [List.length_take]
            omega
          have hr : streamRead s bufSize
              = (s.buffer.length + (s.input.take (bufSize - s.buffer.length)).length,
                 ⟨s.buffer ++ s.input.take (bufSize - s.buffer.length),
                  s.input.drop (bufSize - s.buffer.length)⟩, false) := by
            simp [streamRead, hA, htne, hkne, hinne]
          have htlen : (s.input.take (bufSize - s.buffer.length)).length
              = min (bufSize - s.buffer.length) s.input.length := List.length_take _ _
          have hdroplen : (s.input.drop (bufSize - s.buffer.length)).length
              = s.input.length - (bufSize - s.buffer.length) := List.length_drop _ _
          set k := bufSize - s.buffer.length with hkdef
          set taken := s.input.take k with htkdef
          have happlen : (s.buffer ++ taken).length = s.buffer.length + taken.length :=
            List.length_append _ _
          have hscan0 : (s.buffer ++ taken).length - (s.buffer.length + taken.length)
              = 0 := by omega
          cases htk : taken.findIdx? (· == ch) with
          | some j =>
              have hj : j < taken.length := findIdx_some_lt htk
              have hjk : j + 1 ≤ k := by omega
              have hfull : ((s.buffer ++ taken).drop
                  ((s.buffer ++ taken).length - (s.buffer.length + taken.length))).findIdx?
                  (· == ch) = some (j + s.buffer.length) := by
                rw [hscan0, List.drop_zero, List.findIdx?_append, hnone, Option.none_or,
                  htk]
                rfl
              have hj' : s.input.findIdx? (· == ch) = some j := by
                conv_lhs => rw [← List.take_append_drop k s.input]
                rw [List.findIdx?_append, ← htkdef, htk]
                rfl
              refine ⟨⟨(s.buffer ++ taken).drop
                ((s.buffer ++ taken).length - (s.buffer.length + taken.length)
                  + (j + s.buffer.length) + 1), s.input.drop k⟩, ?_⟩
              simp only [readUntilLoop, hr, hfull]
              rw [ruSpecLoop]
              simp only [hj']
              have htake : (s.buffer ++ taken).take
                  ((s.buffer ++ taken).length - (s.buffer.length + taken.length)
                    + (j + s.buffer.length) + 1)
                  = s.buffer ++ s.input.take (j + 1) := by
                rw [hscan0]
                rw [show 0 + (j + s.buffer.length) + 1 = s.buffer.length + (j + 1)
                  by omega]
                rw [List.take_append]
                rw [htkdef, List.take_take, min_eq_left hjk]
              rw [htake]
          | none =>
              have hscanN : ((s.buffer ++ taken).drop
                  ((s.buffer ++ taken).length - (s.buffer.length + taken.length))).findIdx?
                  (· == ch) = none := by
                rw [hscan0, List.drop_zero, List.findIdx?_append, hnone, Option.none_or,
                  htk]
                rfl
              have hnone' : (s.buffer ++ taken).findIdx? (· == ch) = none := by
                rw [List.findIdx?_append, hnone, Option.none_or, htk]
                rfl
              have habs : ruSpecLoop ⟨s.buffer ++ taken, s.input.drop k⟩ ch
                  = ruSpecLoop s ch := by
                rw [ruSpecLoop_absorb s.buffer taken (s.input.drop k) ch htk,
                  htkdef, List.take_append_drop]
              by_cases hD : bufSize ≤ s.buffer.length + taken.length
              · obtain ⟨st, hst⟩ := ih ⟨s.buffer ++ taken, s.input.drop k⟩ (bufSize * 2)
                  hnone' (by omega) (by simp only; omega)
                refine ⟨st, ?_⟩
                simp only [readUntilLoop, hr, hscanN]
                simp only [Bool.false_eq_true, if_false, happlen, if_pos hD] at hst ⊢
                rw [hst, habs]
              · obtain ⟨st, hst⟩ := ih ⟨s.buffer ++ taken, s.input.drop k⟩ bufSize
                  hnone' hb (by simp only; omega)
                refine ⟨st, ?_⟩
                simp only [readUntilLoop, hr, hscanN]
                simp only [Bool.false_eq_true, if_false, happlen, if_neg hD] at hst ⊢
                rw [hst, habs]

/-- C9: for every buffer content, remaining file content and delimiter,
`ReadUntil` terminates and returns exactly what the specification
states: the bytes up to and including the first occurrence of the
delimiter when one exists; at EOF with residual bytes and no delimiter,
those bytes with no error; at EOF with nothing buffered, an error. -/
theorem readUntil_matches_spec (s : StreamSt) (ch : Nat) :
    ∃ st, readUntil s ch = some (ruSpec s ch, st) := by
  obtain ⟨buffer, input⟩ := s
  cases hb : buffer.findIdx? (· == ch) with
  | some i =>
      have hi : i < buffer.length := findIdx_some_lt hb
      have htot : (buffer ++ input).findIdx? (· == ch) = some i := by
        rw [List.findIdx?_append, hb]
        rfl
      refine ⟨⟨buffer.drop (i + 1), input⟩, ?_⟩
      rw [readUntil]
      simp only [hb]
      rw [ruSpec]
      simp only [htot]
      rw [List.take_append_of_le_length (by omega)]
  | none =>
      obtain ⟨st, hst⟩ := readUntilLoop_spec ch
        (buffer.length + 2 * input.length + 2) ⟨buffer, input⟩ 1024 hb
        (by omega) (by simp only; omega)
      refine ⟨st, ?_⟩
      rw [readUntil]
      simp only [hb]
      rw [hst, ruSpec_eq_ruSpecLoop buffer input ch hb]

end Asyncigo
